import Mathlib

/-!
Shallow embedding of the api-manager service (the Express application in
app.js) and verification of its specification.

Modelling conventions:
* SQLite rows become Lean structures; the two tables (api_keys,
  usage_records) live in a `Store` together with the autoincrement
  counter and an operational log (console.error output of logUsage).
* crypto.scryptSync with the fixed cost parameters is an opaque key
  derivation function carried in the environment (`Env.kdf`), and
  JavaScript date parsing (`new Date(s).getTime()`) is `Env.parseDate`,
  returning `none` for an Invalid Date (NaN); every comparison with NaN
  is false in JavaScript, which the embedding reproduces explicitly.
* JSON round-tripping of the scopes column (JSON.stringify on insert,
  JSON.parse on read) is the identity, so scopes are stored as lists.
* The string test `s.includes(":")` is membership of the colon
  character in the character list of `s`.
* SQL `ORDER BY c DESC` is an executable insertion sort with the
  corresponding comparison.
-/

namespace ApiManager

/-- Row of the api_keys table, as selected by the handlers of app.js. -/
structure ApiKeyRow where
  id : Nat
  key_hash : String
  salt : String
  status : String
  expiration : Option String
  created_at : String
  updated_at : String
  scopes : List String
  owner : String
  deleted_at : Option String
  deriving DecidableEq, Repr

/-- Row of the usage_records table: the columns written by logUsage plus
the store-assigned timestamp, with the metadata object
(service, scope, result) inlined. -/
structure UsageRow where
  api_key_id : Option Nat
  timestamp : String
  action : String
  endpoint : String
  ip : String
  user_agent : String
  metaService : String
  metaScope : String
  metaResult : String
  deriving DecidableEq, Repr

/-- The persistent state: both tables, the autoincrement id counter and
the operational log written by console.error inside logUsage. -/
structure Store where
  nextId : Nat
  keys : List ApiKeyRow
  usage : List UsageRow
  oplog : List String
  deriving DecidableEq, Repr

/-- Ambient environment of a request: the scrypt key derivation with the
fixed cost parameters (kdf secret salt), JavaScript date parsing where
`none` models an Invalid Date, the current time in epoch milliseconds
and its ISO rendering (toISOString). -/
structure Env where
  kdf : String → String → String
  parseDate : String → Option Int
  now : Int
  nowISO : String

/-- Model of the JavaScript test `s.includes(":")`: the colon character
occurs in `s`. This is the scope format check used both on every scopes
element at key creation (line 57 of app.js) and on the scope argument of
a validation call (line 192). -/
def includesColon (s : String) : Bool :=
  decide (':' ∈ s.data)

/-- Model of the JavaScript expression `e || null` applied to the
optional expiration field of a creation request: the empty string is
falsy and becomes null. -/
def orNull : Option String → Option String
  | none => none
  | some s => if s = "" then none else some s

/-- Result of POST /api-keys. -/
inductive IssueRes where
  | badRequest (error : String)
  | created (id : Nat) (key : String) (owner : String) (scopes : List String)
      (expiration : Option String) (status : String) (created_at : String)
  deriving DecidableEq, Repr

/-- Body of POST /api-keys; an absent scopes field is the default
empty list. -/
structure IssueReq where
  owner : String
  scopes : List String
  expiration : Option String
  deriving DecidableEq, Repr

/-- POST /api-keys handler (app.js lines 48-103). The two random inputs
(plaintext key and salt, from crypto.randomBytes) are passed as
arguments. -/
def issue (env : Env) (key salt : String) (s : Store) (req : IssueReq) :
    IssueRes × Store :=
  if req.owner = "" then
    (.badRequest "Owner is required", s)
  else if ¬ (req.scopes.all includesColon = true) then
    (.badRequest "Scopes must be an array of strings in format \"resource:action\" (e.g., \"orders:read\")", s)
  else
    let keyHash := env.kdf key salt
    let row : ApiKeyRow :=
      { id := s.nextId, key_hash := keyHash, salt := salt, status := "active",
        expiration := orNull req.expiration, created_at := env.nowISO,
        updated_at := env.nowISO, scopes := req.scopes, owner := req.owner,
        deleted_at := none }
    (.created s.nextId key req.owner req.scopes (orNull req.expiration) "active" env.nowISO,
     { s with nextId := s.nextId + 1, keys := s.keys ++ [row] })

/-- Insertion step of the sort modelling SQL ORDER BY. -/
def insertBy {α : Type} (r : α → α → Bool) (a : α) : List α → List α
  | [] => [a]
  | b :: l => if r a b then a :: b :: l else b :: insertBy r a l

/-- Executable sort modelling SQL ORDER BY with comparison `r`. -/
def sortBy {α : Type} (r : α → α → Bool) : List α → List α
  | [] => []
  | a :: l => insertBy r a (sortBy r l)

/-- Projection of an api_keys row to the column list of the SELECT in
GET /api-keys: id, owner, scopes, status, expiration, created_at,
updated_at — no key_hash, no salt. -/
structure ListedKey where
  id : Nat
  owner : String
  scopes : List String
  status : String
  expiration : Option String
  created_at : String
  updated_at : String
  deriving DecidableEq, Repr

/-- Column projection of the listing SELECT. -/
def projListed (k : ApiKeyRow) : ListedKey :=
  { id := k.id, owner := k.owner, scopes := k.scopes, status := k.status,
    expiration := k.expiration, created_at := k.created_at,
    updated_at := k.updated_at }

/-- GET /api-keys handler (app.js lines 107-124): non-deleted rows,
projected, ordered by created_at descending. -/
def listKeys (s : Store) : List ListedKey :=
  sortBy (fun a b => decide (b.created_at ≤ a.created_at))
    ((s.keys.filter (fun k => decide (k.deleted_at = none))).map projListed)

/-- Result of PATCH /api-keys/:id. -/
inductive RevokeRes where
  | badRequest (error : String)
  | notFound (error : String)
  | ok (id : Nat) (status : String) (updated_at : String)
  deriving DecidableEq, Repr

/-- PATCH /api-keys/:id handler (app.js lines 128-154). The UPDATE
statement filters on id only — there is no deleted_at condition in its
WHERE clause — and 404 is returned exactly when no row was changed. -/
def revoke (s : Store) (i : Nat) (reqStatus : String) (nowISO : String) :
    RevokeRes × Store :=
  if reqStatus ≠ "revoked" then
    (.badRequest "Only status \"revoked\" is allowed for updates", s)
  else
    let keys2 := s.keys.map (fun k =>
      if k.id = i then { k with status := reqStatus, updated_at := nowISO } else k)
    if s.keys.any (fun k => decide (k.id = i)) then
      (.ok i "revoked" nowISO, { s with keys := keys2 })
    else
      (.notFound "API key not found", s)

/-- Result of DELETE /api-keys/:id. -/
inductive DeleteRes where
  | notFound (error : String)
  | ok (id : Nat) (deleted_at : String)
  deriving DecidableEq, Repr

/-- DELETE /api-keys/:id handler (app.js lines 158-179): the UPDATE
filters on id and deleted_at IS NULL, and 404 is returned exactly when
no row was changed. -/
def softDelete (s : Store) (i : Nat) (nowISO : String) : DeleteRes × Store :=
  let keys2 := s.keys.map (fun k =>
    if k.id = i ∧ k.deleted_at = none
    then { k with deleted_at := some nowISO, updated_at := nowISO } else k)
  if s.keys.any (fun k => decide (k.id = i ∧ k.deleted_at = none)) then
    (.ok i nowISO, { s with keys := keys2 })
  else
    (.notFound "API key not found or already deleted", s)

/-- Body of POST /validate together with the request context read by
logUsage (req.ip and the User-Agent header). -/
structure ValidateReq where
  apiKey : String
  scope : String
  service : String
  ip : String
  userAgent : String
  deriving DecidableEq, Repr

/-- Result of POST /validate. -/
inductive ValidateRes where
  | badRequest (error : String)
  | denied (reason : String)
  | allowed (keyId : Nat) (owner : String) (scopes : List String)
      (service : String) (validatedAt : String)
  deriving DecidableEq, Repr

/-- The usage_records row inserted by logUsage for one validation
attempt; the timestamp column is filled by the store at insert time,
modelled as the current ISO time of the environment. -/
def mkUsage (env : Env) (apiKeyId : Option Nat) (req : ValidateReq)
    (result : String) : UsageRow :=
  { api_key_id := apiKeyId, timestamp := env.nowISO, action := "validate",
    endpoint := "/validate", ip := req.ip, user_agent := req.userAgent,
    metaService := req.service, metaScope := req.scope, metaResult := result }

/-- logUsage (app.js lines 29-39): the INSERT is wrapped in try/catch;
when the write fails nothing is inserted and the error goes to
console.error only, modelled by the operational log. -/
def logUsage (logOk : Bool) (s : Store) (u : UsageRow) : Store :=
  if logOk then { s with usage := s.usage ++ [u] }
  else { s with oplog := s.oplog ++ ["Error logging usage:"] }

/-- Candidate rows of the validation scan: the SELECT with
deleted_at IS NULL (app.js lines 197-201). -/
def activeCandidates (s : Store) : List ApiKeyRow :=
  s.keys.filter (fun k => decide (k.deleted_at = none))

/-- The scan loop of POST /validate (app.js lines 206-212): first
candidate whose stored hash equals the scrypt recomputation from the
presented key and the candidate salt. -/
def findMatch (env : Env) (apiKey : String) (s : Store) : Option ApiKeyRow :=
  (activeCandidates s).find? (fun k => decide (env.kdf apiKey k.salt = k.key_hash))

/-- Model of the JavaScript condition
`keyData.expiration && new Date(keyData.expiration) < new Date()`
(app.js line 228): null and the empty string are falsy; an Invalid Date
compares false; otherwise the comparison is strict less-than on epoch
milliseconds. -/
def jsExpiredLtNow (env : Env) (e : Option String) : Bool :=
  match e with
  | none => false
  | some d =>
    if d = "" then false
    else
      match env.parseDate d with
      | none => false
      | some t => decide (t < env.now)

/-- POST /validate handler (app.js lines 183-256). The logOk flag says
whether the usage INSERT inside logUsage succeeds. -/
def validate (env : Env) (logOk : Bool) (s : Store) (req : ValidateReq) :
    ValidateRes × Store :=
  if req.apiKey = "" ∨ req.scope = "" ∨ req.service = "" then
    (.badRequest "apiKey, scope, and service are required", s)
  else if ¬ (includesColon req.scope = true) then
    (.badRequest "Scope must be in format \"resource:action\"", s)
  else
    match findMatch env req.apiKey s with
    | none =>
      (.denied "Invalid API key", logUsage logOk s (mkUsage env none req "invalid_key"))
    | some kd =>
      if kd.status ≠ "active" then
        (.denied "API key is revoked", logUsage logOk s (mkUsage env (some kd.id) req "revoked"))
      else if jsExpiredLtNow env kd.expiration then
        (.denied "API key has expired", logUsage logOk s (mkUsage env (some kd.id) req "expired"))
      else if ¬ (req.scope ∈ kd.scopes) then
        (.denied "Insufficient scope", logUsage logOk s (mkUsage env (some kd.id) req "insufficient_scope"))
      else
        (.allowed kd.id kd.owner kd.scopes req.service env.nowISO,
         logUsage logOk s (mkUsage env (some kd.id) req "allowed"))

/-- One row of the GET /api-keys/:id/usage result: the usage_records
columns joined (LEFT JOIN on api_key_id = api_keys.id) with the owner,
status and deleted_at of the key. -/
structure UsageOut where
  row : UsageRow
  k_owner : Option String
  k_status : Option String
  k_deleted : Option (Option String)
  deriving DecidableEq, Repr

/-- The LEFT JOIN lookup of the usage query: the api_keys row whose id
equals the api_key_id of the usage row, when that column is not null. -/
def joinKey (s : Store) (u : UsageRow) : Option ApiKeyRow :=
  match u.api_key_id with
  | none => none
  | some i => s.keys.find? (fun k => decide (k.id = i))

/-- GET /api-keys/:id/usage handler (app.js lines 260-293): usage rows
with the given api_key_id, newest first, joined with the key row. -/
def usageQuery (s : Store) (i : Nat) : List UsageOut :=
  (sortBy (fun a b => decide (b.timestamp ≤ a.timestamp))
      (s.usage.filter (fun u => decide (u.api_key_id = some i)))).map
    (fun u =>
      { row := u, k_owner := (joinKey s u).map (fun k => k.owner),
        k_status := (joinKey s u).map (fun k => k.status),
        k_deleted := (joinKey s u).map (fun k => k.deleted_at) })

/-- Spec wording of the expiration step of the reference validation
algorithm: the expiration field is set and its time is strictly before
the current time. -/
def specExpired (env : Env) (e : Option String) : Bool :=
  match e with
  | none => false
  | some d =>
    match env.parseDate d with
    | none => false
    | some t => decide (t < env.now)

/-- Reasons of a denied decision in the specification. -/
inductive SpecReason where
  | invalid_key
  | revoked
  | expired
  | insufficient_scope
  deriving DecidableEq, Repr

/-- Decision of the reference validation algorithm of the
specification. -/
inductive SpecDecision where
  | deny (r : SpecReason)
  | allow (keyId : Nat) (owner : String) (scopes : List String)
      (service : String) (validatedAt : String)
  deriving DecidableEq, Repr

/-- Reference validation algorithm, written from the seven steps of the
specification (section 4.3): scan all non-soft-deleted records and take
the first whose stored verifier equals the KDF recomputation from the
presented secret and that record salt; then, short-circuiting in order:
no match gives invalid_key, a status other than active gives revoked, a
set expiration strictly before the current time gives expired, a
required scope missing from the scopes set gives insufficient_scope,
and otherwise the call is allowed with metadata. -/
def specValidate (env : Env) (s : Store) (secret scope service : String) :
    SpecDecision :=
  match (s.keys.filter (fun k => decide (k.deleted_at = none))).find?
      (fun k => decide (env.kdf secret k.salt = k.key_hash)) with
  | none => .deny .invalid_key
  | some r =>
    if r.status ≠ "active" then .deny .revoked
    else if specExpired env r.expiration then .deny .expired
    else if scope ∉ r.scopes then .deny .insufficient_scope
    else .allow r.id r.owner r.scopes service env.nowISO

/-- Correspondence between the abstract decisions of the specification
and the concrete response bodies of POST /validate, with the reason
strings the handler uses for each outcome. -/
def renderDecision : SpecDecision → ValidateRes
  | .deny .invalid_key => .denied "Invalid API key"
  | .deny .revoked => .denied "API key is revoked"
  | .deny .expired => .denied "API key has expired"
  | .deny .insufficient_scope => .denied "Insufficient scope"
  | .allow i o sc sv t => .allowed i o sc sv t

/-- Scope well-formedness as the specification words it (section 4.2):
the string contains at least one colon separator and both the part
before the first colon and the part after it are non-empty. Stated over
the character list of the string. -/
def claimWellFormed (s : String) : Bool :=
  includesColon s
    && decide (s.data.takeWhile (fun c => c ≠ ':') ≠ [])
    && decide ((s.data.dropWhile (fun c => c ≠ ':')).drop 1 ≠ [])

/-- Concrete environment used to exercise the definitions: a stand-in
key derivation function and a date parser that accepts nothing. -/
def testEnv : Env :=
  { kdf := fun k s => k ++ "|" ++ s, parseDate := fun _ => none,
    now := 0, nowISO := "2026-01-01T00:00:00.000Z" }

/-- Concrete environment whose date parser knows one date lying in the
past. -/
def testEnv2 : Env :=
  { kdf := fun k s => k ++ "|" ++ s,
    parseDate := fun d => if d = "1999" then some (-1) else none,
    now := 0, nowISO := "2026-01-01T00:00:00.000Z" }

/-- An active stored key of owner alice, matching the presented secret
secretA under the key derivation of testEnv. -/
def rowA : ApiKeyRow :=
  { id := 1, key_hash := "secretA|saltA", salt := "saltA", status := "active",
    expiration := none, created_at := "2025-01-01", updated_at := "2025-01-01",
    scopes := ["orders:read"], owner := "alice", deleted_at := none }

/-- A soft-deleted stored key of owner bob, matching the presented
secret secretB under the key derivation of testEnv. -/
def rowB : ApiKeyRow :=
  { id := 2, key_hash := "secretB|saltB", salt := "saltB", status := "active",
    expiration := none, created_at := "2025-01-02", updated_at := "2025-01-03",
    scopes := ["orders:read"], owner := "bob", deleted_at := some "2025-02-01" }

/-- Concrete store holding one active and one soft-deleted key. -/
def store0 : Store := { nextId := 3, keys := [rowA, rowB], usage := [], oplog := [] }

/-- Concrete validation request presenting the secret of rowA. -/
def reqA : ValidateReq :=
  { apiKey := "secretA", scope := "orders:read", service := "svc",
    ip := "ip1", userAgent := "ua1" }

/-- Concrete validation request presenting the secret of the
soft-deleted rowB. -/
def reqB : ValidateReq :=
  { apiKey := "secretB", scope := "orders:read", service := "svc",
    ip := "ip2", userAgent := "ua2" }

/-- An active stored key whose expiration column holds a string that
parses as no valid date. -/
def rowC : ApiKeyRow :=
  { id := 5, key_hash := "secretC|saltC", salt := "saltC", status := "active",
    expiration := some "not-a-date", created_at := "2025-03-01",
    updated_at := "2025-03-01", scopes := ["a:b"], owner := "carol",
    deleted_at := none }

/-- Concrete store holding only rowC. -/
def storeC : Store := { nextId := 6, keys := [rowC], usage := [], oplog := [] }

/-- Concrete validation request presenting the secret of rowC. -/
def reqC : ValidateReq :=
  { apiKey := "secretC", scope := "a:b", service := "svc",
    ip := "ip3", userAgent := "ua3" }

/-- Concrete usage row recorded under key id 1. -/
def usage1 : UsageRow :=
  { api_key_id := some 1, timestamp := "2025-05-01", action := "validate",
    endpoint := "/validate", ip := "ip", user_agent := "ua",
    metaService := "svc", metaScope := "orders:read", metaResult := "allowed" }

/-- Concrete store with one active key, one soft-deleted key and one
usage row. -/
def storeU : Store := { nextId := 3, keys := [rowA, rowB], usage := [usage1], oplog := [] }

/-- String values appearing in the body of a creation response. -/
def issueRespStrings : IssueRes → List String
  | .badRequest e => [e]
  | .created _ key owner scopes e status created_at =>
    key :: owner :: status :: created_at :: (scopes ++ e.toList)

/-- String values appearing in a persisted api_keys row. -/
def rowStrings (k : ApiKeyRow) : List String :=
  k.key_hash :: k.salt :: k.status :: k.created_at :: k.updated_at :: k.owner ::
    (k.scopes ++ k.expiration.toList ++ k.deleted_at.toList)

/-- String values appearing in the body of a validation response. -/
def vRespStrings : ValidateRes → List String
  | .badRequest e => [e]
  | .denied r => [r]
  | .allowed _ o sc sv t => o :: sv :: t :: sc

/-- Blanking of the two secret-bearing columns of a row. -/
def eraseSecrets (k : ApiKeyRow) : ApiKeyRow :=
  { k with key_hash := "", salt := "" }

/-- The same store with the verifier and salt of every key blanked. -/
def eraseStore (s : Store) : Store :=
  { s with keys := s.keys.map eraseSecrets }

/-- Audit-preservation relation between two store states: the usage
table is only ever appended to, and every soft-deleted key keeps its id
and its deletion mark. -/
def auditPreserved (s s2 : Store) : Prop :=
  (∃ t, s2.usage = s.usage ++ t) ∧
  (∀ k ∈ s.keys, k.deleted_at ≠ none →
    ∃ k2 ∈ s2.keys, k2.id = k.id ∧ k2.deleted_at = k.deleted_at)

section Theorems

/-- Membership is invariant under the insertion step of the sort. -/
theorem mem_insertBy {α : Type} (r : α → α → Bool) (a x : α) (l : List α) :
    x ∈ insertBy r a l ↔ x = a ∨ x ∈ l := by
  induction l with
  | nil => simp [insertBy]
  | cons b l ih =>
    simp only [insertBy]
    split
    · simp
    · simp [ih]; tauto

/-- Membership is invariant under the sort modelling ORDER BY. -/
theorem mem_sortBy {α : Type} (r : α → α → Bool) (x : α) (l : List α) :
    x ∈ sortBy r l ↔ x ∈ l := by
  induction l with
  | nil => simp [sortBy]
  | cons a l ih => simp [sortBy, mem_insertBy, ih]

/-- C2 counterexample: on the string consisting of a single colon, the
scope check of the code accepts (the string contains a colon) although
the claimed characterisation requires both sides of the first colon to
be non-empty, which fails here. -/
theorem scope_check_claim_false :
    includesColon ":" = true ∧ claimWellFormed ":" = false := by decide

/-- C2 (amended): the scope check used at key creation and at
validation returns true if and only if the string contains at least one
colon separator; the parts before and after the colon may be empty. -/
theorem scope_check_iff (s : String) :
    includesColon s = true ↔ ∃ a b : String, s = a ++ ":" ++ b := by
  have hcolon : (":" : String).data = [':'] := rfl
  constructor
  · intro h
    have h2 : ':' ∈ s.data := by simpa [includesColon] using h
    obtain ⟨l, r, hl⟩ := List.append_of_mem h2
    refine ⟨⟨l⟩, ⟨r⟩, ?_⟩
    apply String.ext
    simp [String.data_append, hcolon, hl]
  · rintro ⟨a, b, rfl⟩
    simp [includesColon, String.data_append, hcolon]

/-- Closed instance of the amended C2 statement at a concrete string. -/
theorem scope_check_iff_witness : ∃ a b : String, "x:y" = a ++ ":" ++ b :=
  (scope_check_iff "x:y").mp (by decide)

/-- Equivalence of the JavaScript expiration test and the spec wording
of the expiration step, given that the empty string parses as an
Invalid Date (as it does in JavaScript). -/
theorem jsExpired_eq_spec (env : Env) (h : env.parseDate "" = none)
    (e : Option String) : jsExpiredLtNow env e = specExpired env e := by
  cases e with
  | none => rfl
  | some d =>
    by_cases hd : d = ""
    · subst hd; simp [jsExpiredLtNow, specExpired, h]
    · simp [jsExpiredLtNow, specExpired, hd]

/-- C1: for every validation call that passes input validation, the
decision of the handler equals the seven-step reference algorithm of
the specification, rendered through the documented correspondence of
reasons to response strings; in particular the scope check is reached
only after the status and expiration checks pass. -/
theorem validate_refines_spec (env : Env) (s : Store) (req : ValidateReq)
    (h1 : req.apiKey ≠ "") (h2 : req.scope ≠ "") (h3 : req.service ≠ "")
    (h4 : includesColon req.scope = true) (h5 : env.parseDate "" = none) :
    (validate env true s req).1 =
      renderDecision (specValidate env s req.apiKey req.scope req.service) := by
  have hfind : (s.keys.filter (fun k => decide (k.deleted_at = none))).find?
      (fun k => decide (env.kdf req.apiKey k.salt = k.key_hash))
      = findMatch env req.apiKey s := rfl
  unfold validate specValidate
  rw [if_neg (by simp [h1, h2, h3]), if_neg (by simp [h4]), hfind]
  cases hm : findMatch env req.apiKey s with
  | none => simp [renderDecision]
  | some kd =>
    simp only [jsExpired_eq_spec env h5]
    split_ifs <;> simp [renderDecision]

/-- Closed instance of C1 at a concrete environment, store and
request. -/
theorem validate_refines_spec_witness :
    (validate testEnv true store0
        { apiKey := "secretA", scope := "orders:read", service := "svc",
          ip := "ip1", userAgent := "ua1" }).1 =
      renderDecision (specValidate testEnv store0 "secretA" "orders:read" "svc") :=
  validate_refines_spec testEnv store0 _ (by decide) (by decide) (by decide)
    (by decide) rfl

/-- C3 counterexample: the store holds the soft-deleted record rowB
under id 2, yet revoking id 2 does not produce the not-found condition:
it succeeds and rewrites the soft-deleted record, because the WHERE
clause of the revoke UPDATE filters on id only. -/
theorem revoke_soft_deleted_not_404 :
    rowB.deleted_at ≠ none ∧ rowB ∈ store0.keys ∧
    (revoke store0 2 "revoked" "T2").1 = .ok 2 "revoked" "T2" ∧
    (revoke store0 2 "revoked" "T2").2.keys =
      [rowA, { rowB with status := "revoked", updated_at := "T2" }] := by decide

/-- C3 (amended): revoke with status revoked returns the not-found
condition exactly for ids with no record at all, leaving the store
unchanged; for an id with a record — soft-deleted or not — the update
matches, the call reports success, and every record with that id gets
status revoked and a fresh updated_at. Soft-deleted and absent ids are
therefore distinguishable to revoke. -/
theorem revoke_behavior (s : Store) (i : Nat) (now : String) :
    ((∀ k ∈ s.keys, k.id ≠ i) →
      revoke s i "revoked" now = (.notFound "API key not found", s)) ∧
    ((∃ k ∈ s.keys, k.id = i) →
      (revoke s i "revoked" now).1 = .ok i "revoked" now ∧
      (revoke s i "revoked" now).2 =
        { s with keys := s.keys.map (fun k =>
            if k.id = i then { k with status := "revoked", updated_at := now }
            else k) }) := by
  constructor
  · intro h
    have ha : s.keys.any (fun k => decide (k.id = i)) = false := by
      rw [List.any_eq_false]
      intro k hk
      simpa using h k hk
    simp [revoke, ha]
  · rintro ⟨k, hk, hki⟩
    have ha : s.keys.any (fun k => decide (k.id = i)) = true := by
      rw [List.any_eq_true]
      exact ⟨k, hk, by simpa using hki⟩
    simp [revoke, ha]

/-- Closed instance of the amended C3 statement: revoking the
soft-deleted id 2 in the concrete store succeeds. -/
theorem revoke_behavior_witness :
    (revoke store0 2 "revoked" "T2").1 = .ok 2 "revoked" "T2" :=
  ((revoke_behavior store0 2 "T2").2 (by decide)).1

/-- Not-found case of soft delete: when no record with the id is alive,
the call reports the not-found condition and changes nothing. -/
theorem softDelete_notFound (s : Store) (i : Nat) (now : String)
    (h : ∀ k ∈ s.keys, ¬ (k.id = i ∧ k.deleted_at = none)) :
    softDelete s i now = (.notFound "API key not found or already deleted", s) := by
  simp only [softDelete]
  rw [if_neg]
  simp only [List.any_eq_true, decide_eq_true_eq, not_exists]
  intro k
  rw [not_and]
  exact h k

/-- C8: soft delete sets deletedAt and updatedAt exactly when a record
with the id exists whose deletedAt is unset; for an absent or already
soft-deleted id it returns the not-found or already-deleted condition
and changes nothing, so deleting the same key twice makes the second
call report not found. -/
theorem softDelete_behavior (s : Store) (i : Nat) (now now2 : String) :
    ((∀ k ∈ s.keys, ¬ (k.id = i ∧ k.deleted_at = none)) →
      softDelete s i now = (.notFound "API key not found or already deleted", s)) ∧
    ((∃ k ∈ s.keys, k.id = i ∧ k.deleted_at = none) →
      (softDelete s i now).1 = .ok i now ∧
      (softDelete s i now).2 =
        { s with keys := s.keys.map (fun k =>
            if k.id = i ∧ k.deleted_at = none
            then { k with deleted_at := some now, updated_at := now } else k) } ∧
      (softDelete (softDelete s i now).2 i now2).1 =
        .notFound "API key not found or already deleted") := by
  refine ⟨softDelete_notFound s i now, ?_⟩
  rintro ⟨k, hk, hki⟩
  have hex : ∃ x ∈ s.keys, x.id = i ∧ x.deleted_at = none := ⟨k, hk, hki⟩
  have hres : (softDelete s i now).2 =
      { s with keys := s.keys.map (fun k =>
          if k.id = i ∧ k.deleted_at = none
          then { k with deleted_at := some now, updated_at := now } else k) } := by
    simp [softDelete, hex]
  refine ⟨by simp [softDelete, hex], hres, ?_⟩
  rw [hres]
  rw [softDelete_notFound]
  intro k2 hk2
  simp only [List.mem_map] at hk2
  obtain ⟨k3, hk3, rfl⟩ := hk2
  by_cases hc : k3.id = i ∧ k3.deleted_at = none
  · simp [hc]
  · simp only [if_neg hc]
    exact hc

/-- Closed instance of C8: deleting key 1 of the concrete store
succeeds and the second delete of the same id reports not found. -/
theorem softDelete_behavior_witness :
    (softDelete store0 1 "T3").1 = .ok 1 "T3" ∧
    (softDelete (softDelete store0 1 "T3").2 1 "T4").1 =
      .notFound "API key not found or already deleted" :=
  ⟨((softDelete_behavior store0 1 "T3" "T4").2 (by decide)).1,
   ((softDelete_behavior store0 1 "T3" "T4").2 (by decide)).2.2⟩

/-- Evaluation of POST /validate under the input checks of the
handler: the body of the handler after the two input guards. -/
theorem validate_ok_eval (env : Env) (logOk : Bool) (s : Store) (req : ValidateReq)
    (h1 : req.apiKey ≠ "") (h2 : req.scope ≠ "") (h3 : req.service ≠ "")
    (h4 : includesColon req.scope = true) :
    validate env logOk s req =
      match findMatch env req.apiKey s with
      | none =>
        (.denied "Invalid API key", logUsage logOk s (mkUsage env none req "invalid_key"))
      | some kd =>
        if kd.status ≠ "active" then
          (.denied "API key is revoked", logUsage logOk s (mkUsage env (some kd.id) req "revoked"))
        else if jsExpiredLtNow env kd.expiration then
          (.denied "API key has expired", logUsage logOk s (mkUsage env (some kd.id) req "expired"))
        else if ¬ (req.scope ∈ kd.scopes) then
          (.denied "Insufficient scope", logUsage logOk s (mkUsage env (some kd.id) req "insufficient_scope"))
        else
          (.allowed kd.id kd.owner kd.scopes req.service env.nowISO,
           logUsage logOk s (mkUsage env (some kd.id) req "allowed")) := by
  unfold validate
  rw [if_neg (by simp [h1, h2, h3]), if_neg (by simp [h4])]

/-- Evaluation of POST /validate when a required field is empty. -/
theorem validate_missing_eval (env : Env) (logOk : Bool) (s : Store)
    (req : ValidateReq) (h : req.apiKey = "" ∨ req.scope = "" ∨ req.service = "") :
    validate env logOk s req =
      (.badRequest "apiKey, scope, and service are required", s) := by
  unfold validate
  rw [if_pos h]

/-- Evaluation of POST /validate when the scope lacks a colon. -/
theorem validate_noColon_eval (env : Env) (logOk : Bool) (s : Store)
    (req : ValidateReq) (h1 : ¬ (req.apiKey = "" ∨ req.scope = "" ∨ req.service = ""))
    (h4 : ¬ (includesColon req.scope = true)) :
    validate env logOk s req =
      (.badRequest "Scope must be in format \"resource:action\"", s) := by
  unfold validate
  rw [if_neg h1, if_pos h4]

/-- C4 counterexample: the scope consisting of a single colon violates
the claimed precondition (spec well-formedness), yet the call is not
rejected before store access: it runs the scan, returns a decision and
writes one UsageRecord. -/
theorem validate_claim_precondition_false :
    claimWellFormed ":" = false ∧
    (validate testEnv true store0
      { apiKey := "nomatch", scope := ":", service := "svc",
        ip := "ip", userAgent := "ua" }).2.usage.length = store0.usage.length + 1 ∧
    (validate testEnv true store0
      { apiKey := "nomatch", scope := ":", service := "svc",
        ip := "ip", userAgent := "ua" }).1 = .denied "Invalid API key" := by decide

/-- C4 (amended): a validation call whose inputs are non-empty and
whose scope contains a colon — the precondition the handler actually
enforces — appends exactly one UsageRecord, whichever of the five
outcomes occurs, and that record carries a null apiKeyId exactly when
no stored key matched; a call violating this precondition is rejected
with a caller error before any store access and writes nothing. -/
theorem validate_one_usage (env : Env) (s : Store) (req : ValidateReq) :
    ((req.apiKey ≠ "" ∧ req.scope ≠ "" ∧ req.service ≠ "" ∧
        includesColon req.scope = true) →
      ∃ u, (validate env true s req).2.usage = s.usage ++ [u] ∧
        (u.api_key_id = none ↔ findMatch env req.apiKey s = none)) ∧
    (¬ (req.apiKey ≠ "" ∧ req.scope ≠ "" ∧ req.service ≠ "" ∧
        includesColon req.scope = true) →
      ∃ e, validate env true s req = (.badRequest e, s)) := by
  constructor
  · rintro ⟨h1, h2, h3, h4⟩
    rw [validate_ok_eval env true s req h1 h2 h3 h4]
    cases hm : findMatch env req.apiKey s with
    | none =>
      simp only []
      exact ⟨mkUsage env none req "invalid_key", by simp [logUsage], by simp [mkUsage]⟩
    | some kd =>
      simp only []
      split_ifs <;> refine ⟨_, rfl, ?_⟩ <;> simp [mkUsage]
  · intro h
    by_cases h1 : req.apiKey = "" ∨ req.scope = "" ∨ req.service = ""
    · exact ⟨_, validate_missing_eval env true s req h1⟩
    · have h1c := h1
      push_neg at h1c
      obtain ⟨ha, hb, hc⟩ := h1c
      have h4 : ¬ (includesColon req.scope = true) := fun hcol => h ⟨ha, hb, hc, hcol⟩
      exact ⟨_, validate_noColon_eval env true s req h1 h4⟩

/-- Closed instance of the amended C4 statement at a concrete request
that passes the enforced precondition. -/
theorem validate_one_usage_witness :
    ∃ u, (validate testEnv true store0 reqA).2.usage = store0.usage ++ [u] ∧
      (u.api_key_id = none ↔ findMatch testEnv reqA.apiKey store0 = none) :=
  (validate_one_usage testEnv store0 reqA).1 (by decide)

/-- C7: a failing usage write changes neither the decision nor any
response content of a validation call, and leaves the key table and the
usage table untouched; when the call reaches the logging step the
failure is reported to the operational log only. -/
theorem log_failure_isolated (env : Env) (s : Store) (req : ValidateReq) :
    (validate env false s req).1 = (validate env true s req).1 ∧
    (validate env false s req).2.usage = s.usage ∧
    (validate env false s req).2.keys = s.keys ∧
    ((req.apiKey ≠ "" ∧ req.scope ≠ "" ∧ req.service ≠ "" ∧
        includesColon req.scope = true) →
      (validate env false s req).2.oplog = s.oplog ++ ["Error logging usage:"]) := by
  by_cases h1 : req.apiKey = "" ∨ req.scope = "" ∨ req.service = ""
  · rw [validate_missing_eval env false s req h1, validate_missing_eval env true s req h1]
    refine ⟨rfl, rfl, rfl, ?_⟩
    rintro ⟨ha, hb, hc, -⟩
    rcases h1 with h | h | h
    · exact absurd h ha
    · exact absurd h hb
    · exact absurd h hc
  · have h1c := h1
    push_neg at h1c
    obtain ⟨ha, hb, hc⟩ := h1c
    by_cases h4 : includesColon req.scope = true
    · rw [validate_ok_eval env false s req ha hb hc h4,
        validate_ok_eval env true s req ha hb hc h4]
      cases hm : findMatch env req.apiKey s with
      | none => simp [logUsage]
      | some kd =>
        simp only []
        split_ifs <;> simp [logUsage]
    · rw [validate_noColon_eval env false s req h1 h4,
        validate_noColon_eval env true s req h1 h4]
      refine ⟨rfl, rfl, rfl, ?_⟩
      rintro ⟨-, -, -, hcol⟩
      exact absurd hcol h4

/-- Closed instance of C7: at a concrete call, the decision under a
failing usage write equals the decision under a successful one, and the
failure lands in the operational log. -/
theorem log_failure_isolated_witness :
    (validate testEnv false store0 reqA).1 = (validate testEnv true store0 reqA).1 ∧
    (validate testEnv false store0 reqA).2.oplog =
      store0.oplog ++ ["Error logging usage:"] :=
  ⟨(log_failure_isolated testEnv store0 reqA).1,
   (log_failure_isolated testEnv store0 reqA).2.2.2 (by decide)⟩

/-- C9: when every stored key whose verifier matches the presented
secret is soft-deleted, validation denies with the invalid-key reason
(not revoked, not expired), the written UsageRecord has a null
apiKeyId, and that record appears in no usage history queried by key
id. -/
theorem deleted_key_invalid (env : Env) (s : Store) (req : ValidateReq)
    (h1 : req.apiKey ≠ "") (h2 : req.scope ≠ "") (h3 : req.service ≠ "")
    (h4 : includesColon req.scope = true)
    (h5 : ∀ k ∈ s.keys, env.kdf req.apiKey k.salt = k.key_hash → k.deleted_at ≠ none) :
    (validate env true s req).1 = .denied "Invalid API key" ∧
    (validate env true s req).2.usage =
      s.usage ++ [mkUsage env none req "invalid_key"] ∧
    (mkUsage env none req "invalid_key").api_key_id = none ∧
    ∀ i : Nat, ∀ o ∈ usageQuery (validate env true s req).2 i,
      o.row ≠ mkUsage env none req "invalid_key" := by
  have hfind : findMatch env req.apiKey s = none := by
    unfold findMatch activeCandidates
    rw [List.find?_eq_none]
    intro k hk
    rw [List.mem_filter] at hk
    obtain ⟨hk1, hk2⟩ := hk
    simp only [decide_eq_true_eq] at hk2 ⊢
    intro heq
    exact h5 k hk1 heq hk2
  rw [validate_ok_eval env true s req h1 h2 h3 h4, hfind]
  refine ⟨rfl, by simp [logUsage], rfl, ?_⟩
  intro i o ho
  unfold usageQuery at ho
  rw [List.mem_map] at ho
  obtain ⟨u, hu, rfl⟩ := ho
  rw [mem_sortBy, List.mem_filter] at hu
  simp only [decide_eq_true_eq] at hu
  intro hq
  have hq2 : u = mkUsage env none req "invalid_key" := hq
  rw [hq2] at hu
  simp [mkUsage] at hu

/-- Closed instance of C9: the soft-deleted rowB is the only match for
the presented secretB, and the call is denied as invalid with a null
apiKeyId usage row. -/
theorem deleted_key_invalid_witness :
    (validate testEnv true store0 reqB).1 = .denied "Invalid API key" ∧
    (validate testEnv true store0 reqB).2.usage =
      store0.usage ++ [mkUsage testEnv none reqB "invalid_key"] :=
  ⟨(deleted_key_invalid testEnv store0 reqB (by decide) (by decide) (by decide)
      (by decide) (by decide)).1,
   (deleted_key_invalid testEnv store0 reqB (by decide) (by decide) (by decide)
      (by decide) (by decide)).2.1⟩

/-- C10: issuance performs no validation of the expiration value:
under the enforced owner and scopes checks, any truthy expiration
string is persisted unchanged whatever the date parser or the current
time say about it — in particular a time already in the past — and a
stored expiration that parses as no valid date never triggers the
expired branch of validation, because the comparison with an Invalid
Date is false. -/
theorem expiration_unchecked (env : Env) (key salt : String) (s : Store)
    (req : IssueReq) (vreq : ValidateReq) :
    ((req.owner ≠ "" ∧ req.scopes.all includesColon = true ∧ req.expiration ≠ some "") →
      (issue env key salt s req).2.keys =
        s.keys ++ [⟨s.nextId, env.kdf key salt, salt, "active", req.expiration,
          env.nowISO, env.nowISO, req.scopes, req.owner, none⟩]) ∧
    ((vreq.apiKey ≠ "" ∧ vreq.scope ≠ "" ∧ vreq.service ≠ "" ∧
        includesColon vreq.scope = true) →
      ∀ r, findMatch env vreq.apiKey s = some r →
        (∀ d, r.expiration = some d → env.parseDate d = none) →
        (validate env true s vreq).1 ≠ .denied "API key has expired") := by
  constructor
  · rintro ⟨h1, h2, h3⟩
    have horn : orNull req.expiration = req.expiration := by
      cases hqe : req.expiration with
      | none => rfl
      | some d =>
        have hd : ¬ (d = "") := by
          intro hdd
          apply h3
          rw [hqe, hdd]
        simp [orNull, hd]
    unfold issue
    rw [if_neg h1, if_neg (by simp [h2])]
    simp only [horn]
  · rintro ⟨h1, h2, h3, h4⟩ r hr hinv
    have hexp : jsExpiredLtNow env r.expiration = false := by
      cases he : r.expiration with
      | none => rfl
      | some d =>
        simp only [jsExpiredLtNow]
        by_cases hd : d = ""
        · simp [hd]
        · simp [hd, hinv d he]
    rw [validate_ok_eval env true s vreq h1 h2 h3 h4, hr]
    simp only []
    split_ifs with hs hex
    · simp
    · rw [hexp] at hex
      cases hex
    · simp
    · simp

/-- Closed instance of C10: a key is created in a concrete store with
an expiration that the environment parses as a time before now, and the
value is stored as-is; and validating the key of storeC, whose stored
expiration parses as no date, is not denied as expired. -/
theorem expiration_unchecked_witness :
    ((issue testEnv2 "kX" "sX" store0
        { owner := "dora", scopes := ["a:b"], expiration := some "1999" }).2.keys =
      store0.keys ++ [⟨store0.nextId, testEnv2.kdf "kX" "sX", "sX", "active",
        some "1999", testEnv2.nowISO, testEnv2.nowISO, ["a:b"], "dora", none⟩]) ∧
    (validate testEnv true storeC reqC).1 ≠ .denied "API key has expired" :=
  ⟨(expiration_unchecked testEnv2 "kX" "sX" store0
      { owner := "dora", scopes := ["a:b"], expiration := some "1999" } reqC).1
      (by decide),
   (expiration_unchecked testEnv "k" "s" storeC
      { owner := "x", scopes := [], expiration := none } reqC).2
      (by decide) rowC (by decide) (fun d hd => rfl)⟩

/-- Keys are untouched by logUsage, whether the write succeeds or
fails. -/
theorem logUsage_keys (b : Bool) (s : Store) (u : UsageRow) :
    (logUsage b s u).keys = s.keys := by
  cases b <;> rfl

/-- logUsage only ever appends to the usage table. -/
theorem logUsage_usage (b : Bool) (s : Store) (u : UsageRow) :
    ∃ t, (logUsage b s u).usage = s.usage ++ t := by
  cases b with
  | true => exact ⟨[u], rfl⟩
  | false => exact ⟨[], by simp [logUsage]⟩

/-- C5: a soft-deleted record reaches no listing entry and is never a
match candidate of validation, while usage rows recorded under a key id
stay answerable by the usage query; and each of the four mutating
operations preserves the audit state: usage rows are only appended and
a soft-deleted key keeps its deletion mark. -/
theorem deleted_keys_invariant (env : Env) (s : Store) :
    (∀ x ∈ listKeys s, ∃ k ∈ s.keys, k.deleted_at = none ∧ x = projListed k) ∧
    (∀ secret r, findMatch env secret s = some r → r.deleted_at = none) ∧
    (∀ i u, u ∈ s.usage → u.api_key_id = some i →
      ∃ o ∈ usageQuery s i, o.row = u) ∧
    (∀ key salt req, auditPreserved s (issue env key salt s req).2) ∧
    (∀ i st now, auditPreserved s (revoke s i st now).2) ∧
    (∀ i now, auditPreserved s (softDelete s i now).2) ∧
    (∀ logOk req, auditPreserved s (validate env logOk s req).2) := by
  refine ⟨?_, ?_, ?_, ?_, ?_, ?_, ?_⟩
  · intro x hx
    unfold listKeys at hx
    rw [mem_sortBy, List.mem_map] at hx
    obtain ⟨k, hk, rfl⟩ := hx
    rw [List.mem_filter] at hk
    exact ⟨k, hk.1, by simpa using hk.2, rfl⟩
  · intro secret r hr
    unfold findMatch activeCandidates at hr
    have hmem := List.mem_filter.mp (List.mem_of_find?_eq_some hr)
    simpa using hmem.2
  · intro i u hu hui
    refine ⟨⟨u, (joinKey s u).map (fun k => k.owner),
      (joinKey s u).map (fun k => k.status),
      (joinKey s u).map (fun k => k.deleted_at)⟩, ?_, rfl⟩
    unfold usageQuery
    rw [List.mem_map]
    refine ⟨u, ?_, rfl⟩
    rw [mem_sortBy, List.mem_filter]
    exact ⟨hu, by simp [hui]⟩
  · intro key salt req
    unfold issue
    split_ifs
    · exact ⟨⟨[], by simp⟩, fun k hk hd => ⟨k, hk, rfl, rfl⟩⟩
    · exact ⟨⟨[], by simp⟩, fun k hk hd =>
        ⟨k, List.mem_append_left _ hk, rfl, rfl⟩⟩
    · exact ⟨⟨[], by simp⟩, fun k hk hd => ⟨k, hk, rfl, rfl⟩⟩
  · intro i st now
    unfold revoke
    split_ifs
    · exact ⟨⟨[], by simp⟩, fun k hk hd => ⟨k, hk, rfl, rfl⟩⟩
    · refine ⟨⟨[], by simp⟩, fun k hk hd => ?_⟩
      refine ⟨if k.id = i then { k with status := st, updated_at := now } else k,
        List.mem_map_of_mem _ hk, ?_, ?_⟩ <;> by_cases h : k.id = i <;> simp [h]
    · exact ⟨⟨[], by simp⟩, fun k hk hd => ⟨k, hk, rfl, rfl⟩⟩
  · intro i now
    unfold softDelete
    split_ifs
    · refine ⟨⟨[], by simp⟩, fun k hk hd => ?_⟩
      have hcond : ¬ (k.id = i ∧ k.deleted_at = none) := fun hc => hd hc.2
      refine ⟨k, ?_, rfl, rfl⟩
      have : (if k.id = i ∧ k.deleted_at = none
          then { k with deleted_at := some now, updated_at := now } else k) = k := by
        rw [if_neg hcond]
      rw [← this]
      exact List.mem_map_of_mem _ hk
    · exact ⟨⟨[], by simp⟩, fun k hk hd => ⟨k, hk, rfl, rfl⟩⟩
  · intro logOk req
    have hpres : ∀ u : UsageRow, auditPreserved s (logUsage logOk s u) := by
      intro u
      exact ⟨logUsage_usage logOk s u,
        fun k hk hd => ⟨k, by rw [logUsage_keys]; exact hk, rfl, rfl⟩⟩
    by_cases h1 : req.apiKey = "" ∨ req.scope = "" ∨ req.service = ""
    · rw [validate_missing_eval env logOk s req h1]
      exact ⟨⟨[], by simp⟩, fun k hk hd => ⟨k, hk, rfl, rfl⟩⟩
    · have h1c := h1
      push_neg at h1c
      obtain ⟨ha, hb, hc⟩ := h1c
      by_cases h4 : includesColon req.scope = true
      · rw [validate_ok_eval env logOk s req ha hb hc h4]
        cases hm : findMatch env req.apiKey s with
        | none => exact hpres _
        | some kd =>
          simp only []
          split_ifs <;> exact hpres _
      · rw [validate_noColon_eval env logOk s req h1 h4]
        exact ⟨⟨[], by simp⟩, fun k hk hd => ⟨k, hk, rfl, rfl⟩⟩

/-- Closed instance of C5: in the concrete store the recorded usage row
of key 1 is answered by the usage query, and soft deletion of key 1
preserves the audit state. -/
theorem deleted_keys_invariant_witness :
    (∃ o ∈ usageQuery storeU 1, o.row = usage1) ∧
    auditPreserved storeU (softDelete storeU 1 "T9").2 :=
  ⟨(deleted_keys_invariant testEnv storeU).2.2.1 1 usage1 (by decide) (by decide),
   (deleted_keys_invariant testEnv storeU).2.2.2.2.2.1 1 "T9"⟩

/-- Keys of a store after blanking secrets. -/
theorem eraseStore_keys (s : Store) :
    (eraseStore s).keys = s.keys.map eraseSecrets := rfl

/-- C6: the creation response carries the plaintext exactly once; the
row persisted at creation never contains the plaintext, only the
derived verifier and the salt; listing, revoke, soft delete and the
usage query read nothing from the verifier or salt columns (their
results are unchanged when those columns are blanked); and a
validation response can only contain fixed reason strings, the caller
supplied service name, the current time rendering, and the owner and
scopes of stored keys — so under the stated distinctness of the
plaintext and verifier from those public values, neither ever appears
in it. -/
theorem secrets_confined (env : Env) (s : Store) (key salt : String)
    (req : IssueReq) (vreq : ValidateReq) (logOk : Bool) (i : Nat)
    (st now : String) :
    ((req.owner ≠ "" ∧ req.scopes.all includesColon = true) →
      (key ≠ req.owner ∧ key ≠ "active" ∧ key ≠ env.nowISO ∧ key ∉ req.scopes ∧
        (∀ d, orNull req.expiration = some d → key ≠ d)) →
      List.count key (issueRespStrings (issue env key salt s req).1) = 1) ∧
    ((key ≠ env.kdf key salt ∧ key ≠ salt ∧ key ≠ req.owner ∧ key ≠ "active" ∧
        key ≠ env.nowISO ∧ key ∉ req.scopes ∧
        (∀ d, orNull req.expiration = some d → key ≠ d)) →
      ∀ k ∈ (issue env key salt s req).2.keys, k ∈ s.keys ∨ key ∉ rowStrings k) ∧
    listKeys (eraseStore s) = listKeys s ∧
    (revoke (eraseStore s) i st now).1 = (revoke s i st now).1 ∧
    (softDelete (eraseStore s) i now).1 = (softDelete s i now).1 ∧
    usageQuery (eraseStore s) i = usageQuery s i ∧
    (∀ x : String,
      x ∉ ["apiKey, scope, and service are required",
        "Scope must be in format \"resource:action\"",
        "Invalid API key", "API key is revoked", "API key has expired",
        "Insufficient scope"] →
      x ≠ vreq.service → x ≠ env.nowISO →
      (∀ k ∈ s.keys, x ≠ k.owner ∧ x ∉ k.scopes) →
      x ∉ vRespStrings (validate env logOk s vreq).1) := by
  refine ⟨?_, ?_, ?_, ?_, ?_, ?_, ?_⟩
  · rintro ⟨h1, h2⟩ ⟨hx1, hx2, hx3, hx4, hx5⟩
    unfold issue
    rw [if_neg h1, if_neg (by simp [h2])]
    simp only [issueRespStrings]
    have hnot : key ∉ (req.owner :: "active" :: env.nowISO ::
        (req.scopes ++ (orNull req.expiration).toList)) := by
      simp only [List.mem_cons, List.mem_append, not_or]
      refine ⟨hx1, hx2, hx3, hx4, ?_⟩
      intro hmem
      exact (hx5 key (by simpa using hmem)) rfl
    rw [List.count_cons_self, List.count_eq_zero.mpr hnot]
  · rintro ⟨hk0, hk1, hk2, hk3, hk4, hk5, hk6⟩ k hk
    unfold issue at hk
    split_ifs at hk
    · exact Or.inl hk
    · rcases List.mem_append.mp hk with h | h
      · exact Or.inl h
      · right
        have hkr : k = ⟨s.nextId, env.kdf key salt, salt, "active",
            orNull req.expiration, env.nowISO, env.nowISO, req.scopes,
            req.owner, none⟩ := by simpa using h
        rw [hkr]
        simp only [rowStrings, List.mem_cons]
        intro hmem
        rcases hmem with h | h | h | h | h | h | hmem2
        · exact hk0 h
        · exact hk1 h
        · exact hk3 h
        · exact hk4 h
        · exact hk4 h
        · exact hk2 h
        · rcases List.mem_append.mp hmem2 with h2 | h2
          · rcases List.mem_append.mp h2 with h3 | h3
            · exact hk5 h3
            · exact (hk6 key (by simpa using h3)) rfl
          · simp at h2
    · exact Or.inl hk
  · have hfm : ((s.keys.map eraseSecrets).filter
        (fun k => decide (k.deleted_at = none))).map projListed =
        (s.keys.filter (fun k => decide (k.deleted_at = none))).map projListed := by
      rw [List.filter_map, List.map_map]
      rfl
    exact congrArg (sortBy (fun a b => decide (b.created_at ≤ a.created_at))) hfm
  · by_cases hst : st ≠ "revoked"
    · unfold revoke
      rw [if_pos hst, if_pos hst]
    · unfold revoke
      rw [if_neg hst, if_neg hst]
      have hany : (eraseStore s).keys.any (fun k => decide (k.id = i)) =
          s.keys.any (fun k => decide (k.id = i)) := by
        rw [eraseStore_keys, List.any_map]
        rfl
      rw [hany]
      split_ifs <;> rfl
  · unfold softDelete
    have hany : (eraseStore s).keys.any
        (fun k => decide (k.id = i ∧ k.deleted_at = none)) =
        s.keys.any (fun k => decide (k.id = i ∧ k.deleted_at = none)) := by
      rw [eraseStore_keys, List.any_map]
      rfl
    rw [hany]
    split_ifs <;> rfl
  · have hj : ∀ u : UsageRow,
        joinKey (eraseStore s) u = (joinKey s u).map eraseSecrets := by
      intro u
      unfold joinKey
      cases u.api_key_id with
      | none => rfl
      | some j =>
        simp only []
        rw [eraseStore_keys, List.find?_map]
        rfl
    unfold usageQuery
    rw [show (eraseStore s).usage = s.usage from rfl]
    apply List.map_congr_left
    intro u hu
    rw [hj u]
    cases hju : joinKey s u <;> rfl
  · intro x hfix hsvc hnow hkeys
    have h6 := hfix
    simp only [List.mem_cons, List.not_mem_nil, or_false, not_or] at h6
    obtain ⟨hf1, hf2, hf3, hf4, hf5, hf6⟩ := h6
    by_cases h1 : vreq.apiKey = "" ∨ vreq.scope = "" ∨ vreq.service = ""
    · rw [validate_missing_eval env logOk s vreq h1]
      simp only [vRespStrings, List.mem_cons, List.not_mem_nil, or_false]
      exact hf1
    · have h1c := h1
      push_neg at h1c
      obtain ⟨ha, hb, hc⟩ := h1c
      by_cases h4 : includesColon vreq.scope = true
      · rw [validate_ok_eval env logOk s vreq ha hb hc h4]
        cases hm : findMatch env vreq.apiKey s with
        | none =>
          simp only [vRespStrings, List.mem_cons, List.not_mem_nil, or_false]
          exact hf3
        | some kd =>
          have hkd : kd ∈ s.keys := by
            have hmem := List.mem_of_find?_eq_some hm
            exact (List.mem_filter.mp hmem).1
          obtain ⟨hown, hsc⟩ := hkeys kd hkd
          simp only []
          split_ifs
          · simp only [vRespStrings, List.mem_cons, List.not_mem_nil, or_false]
            exact hf4
          · simp only [vRespStrings, List.mem_cons, List.not_mem_nil, or_false]
            exact hf5
          · simp only [vRespStrings, List.mem_cons, not_or]
            exact ⟨hown, hsvc, hnow, hsc⟩
          · simp only [vRespStrings, List.mem_cons, List.not_mem_nil, or_false]
            exact hf6
      · rw [validate_noColon_eval env logOk s vreq h1 h4]
        simp only [vRespStrings, List.mem_cons, List.not_mem_nil, or_false]
        exact hf2

/-- Closed instance of C6: a concrete creation response carries its
plaintext exactly once, and the plaintext of key 1 never appears in a
concrete validation response for it. -/
theorem secrets_confined_witness :
    List.count "kW" (issueRespStrings (issue testEnv "kW" "sW" store0
      { owner := "erin", scopes := ["a:b"], expiration := none }).1) = 1 ∧
    "secretA" ∉ vRespStrings (validate testEnv true store0 reqA).1 :=
  ⟨(secrets_confined testEnv store0 "kW" "sW"
      { owner := "erin", scopes := ["a:b"], expiration := none } reqA true 1
      "revoked" "T").1 (by decide)
      ⟨by decide, by decide, by decide, by decide, fun d hd => Option.noConfusion hd⟩,
   (secrets_confined testEnv store0 "kW" "sW"
      { owner := "erin", scopes := ["a:b"], expiration := none } reqA true 1
      "revoked" "T").2.2.2.2.2.2 "secretA" (by decide) (by decide) (by decide)
      (by decide)⟩

end Theorems

end ApiManager
